import Mathlib

/-!
Verification of the streaming/ navigation/ conversation core of the
GOVINDA document-analysis web client.

The definitions below are shallow embeddings of:
* the SSE stream decoder and extraction loop of
  `web/src/lib/api.ts` (`extractActionablesStreaming`),
* the extraction-progress projection of
  `web/src/components/views/actionables-panel.tsx` (`handleExtract`),
* the chat submission logic of `ChatInterface.handleSubmit`
  (identical in `ResearchChat.handleSubmit`),
* the PDF navigation handle of
  `web/src/components/views/pdf-viewer.tsx` (`jumpToPage`),
* the cross-document navigation of the research page
  (`handleCitationClick` plus its pending-page effect).
-/

set_option maxHeartbeats 1000000

namespace Govinda

/-! ## Part 1: SSE record splitting (api.ts lines 175-185)

The decoder accumulates text chunks into `buffer`, splits on the
two-character terminator `"\n\n"` (`buffer.split('\n\n')`), keeps the last
(possibly incomplete) part as the new buffer (`buffer = parts.pop() || ''`)
and yields every complete part.  Text is modelled as `List Char`.
`sseSplit` is JavaScript `String.split` with separator `"\n\n"`:
greedy leftmost non-overlapping matching, always at least one part. -/

def sseSplit : List Char → List (List Char)
  | [] => [[]]
  | [a] => [[a]]
  | a :: b :: rest =>
    if a = '\n' ∧ b = '\n' then
      [] :: sseSplit rest
    else
      match sseSplit (b :: rest) with
      | [] => [[a]]
      | p :: ps => (a :: p) :: ps

/-- Last element of a list with a default; `parts.pop() || ''` always sees a
nonempty `parts`, and an empty popped string stays empty, so this is the
faithful buffer update. -/
def lastD {α : Type} (d : α) : List α → α
  | [] => d
  | [x] => x
  | _ :: x :: xs => lastD d (x :: xs)

/-- One reader iteration of the while-loop: append the chunk to the buffer,
split on the terminator, yield all complete parts, retain the last part. -/
def feedChunk (buf c : List Char) : List (List Char) × List Char :=
  let parts := sseSplit (buf ++ c)
  (parts.dropLast, lastD [] parts)

/-- The whole while-loop over a chunk sequence: the ordered list of yielded
complete segments, and the final buffer (discarded when the stream ends). -/
def decodeAux (buf : List Char) : List (List Char) → List (List Char) × List Char
  | [] => ([], buf)
  | c :: cs =>
    let parts := sseSplit (buf ++ c)
    let rest := decodeAux (lastD [] parts) cs
    (parts.dropLast ++ rest.1, rest.2)

/-- The stream decoder inside `extractActionablesStreaming`, started with an
empty buffer. -/
def decodeChunks (chunks : List (List Char)) : List (List Char) × List Char :=
  decodeAux [] chunks

/-! ## Part 2: record parsing and the extraction loop (api.ts lines 117-208)

`ExtractionProgressEvent` is the parsed shape of one SSE record.  `result`
is the opaque `ActionablesResult` payload, kept as a type parameter `R`.
`JSON.parse` itself is external; it is modelled as an arbitrary function
`parse : List Char → Option (ProgressEvent R)` (`none` models a parse
failure, which the loop logs and skips). -/

structure ProgressEvent (R : Type) where
  event : String
  candidate_count : Option Nat := none
  total_nodes : Option Nat := none
  total_batches : Option Nat := none
  batch : Option Nat := none
  sections : Option (List String) := none
  batch_actionables : Option Nat := none
  cumulative_actionables : Option Nat := none
  total_actionables : Option Nat := none
  validated : Option Nat := none
  flagged : Option Nat := none
  result : Option R := none
  message : Option String := none
deriving DecidableEq

/-- The ASCII whitespace characters stripped by JavaScript `String.trim`. -/
def jsWhitespace (c : Char) : Bool :=
  (c = ' ') || (c = '\t') || (c = '\n') || (c = '\r') || (c = Char.ofNat 11) || (c = Char.ofNat 12)

/-- JavaScript `part.trim()`. -/
def jsTrim (s : List Char) : List Char :=
  ((s.dropWhile jsWhitespace).reverse.dropWhile jsWhitespace).reverse

/-- The SSE record-start marker checked by `line.startsWith('data: ')`. -/
def dataMarker : List Char := ("data: ").data

/-- Per-segment processing of the loop body (api.ts lines 183-192): trim,
require the `data: ` marker (other framing is skipped), strip the 6-character
marker (`line.slice(6)`) and hand the rest to `JSON.parse`. -/
def parseSegment {R : Type} (parse : List Char → Option (ProgressEvent R))
    (seg : List Char) : Option (ProgressEvent R) :=
  let line := jsTrim seg
  if dataMarker.isPrefixOf line then parse (line.drop 6) else none

/-- The ordered sequence of parsed records the streaming decoder yields for a
chunk sequence: every complete segment, parsed, with unparseable or
non-`data:` segments skipped. -/
def streamRecords {R : Type} (parse : List Char → Option (ProgressEvent R))
    (chunks : List (List Char)) : List (ProgressEvent R) :=
  ((decodeChunks chunks).1).filterMap (parseSegment parse)

/-- JavaScript `x || d` for `x : string | null | undefined`: the empty string
is falsy and also falls back to the default. -/
def jsOrString (o : Option String) (d : String) : String :=
  match o with
  | some s => if s = "" then d else s
  | none => d

def extractionFailedMsg : String := "Extraction failed"

def streamEndedMsg : String := "Extraction stream ended without a complete result"

instance {ε α : Type} [DecidableEq ε] [DecidableEq α] : DecidableEq (Except ε α) := fun x y =>
  match x, y with
  | .ok a, .ok b =>
    if h : a = b then .isTrue (congrArg Except.ok h)
    else .isFalse (fun hc => h (Except.ok.inj hc))
  | .error a, .error b =>
    if h : a = b then .isTrue (congrArg Except.error h)
    else .isFalse (fun hc => h (Except.error.inj hc))
  | .ok _, .error _ => .isFalse (fun hc => Except.noConfusion hc)
  | .error _, .ok _ => .isFalse (fun hc => Except.noConfusion hc)

/-- The event-level body of the extraction loop (api.ts lines 193-199), run
over an already-parsed event list.  State: `fin` is `finalResult`, `calls`
the ordered `onProgress` invocations so far.  A `complete` event with a
result payload records it; an `error` event throws (before `onProgress`). -/
def processEvents {R : Type} :
    List (ProgressEvent R) → Option R → List (ProgressEvent R) →
    Except String (Option R) × List (ProgressEvent R)
  | [], fin, calls => (.ok fin, calls)
  | ev :: rest, fin, calls =>
    if ev.event = "error" then
      (.error (jsOrString ev.message extractionFailedMsg), calls)
    else
      processEvents rest
        (if ev.event = "complete" ∧ ev.result.isSome then ev.result else fin)
        (calls ++ [ev])

/-- The segment-level body of the extraction loop: parse each yielded
segment, skip the ones `parseSegment` rejects, and process the events. -/
def processSegs {R : Type} (parse : List Char → Option (ProgressEvent R)) :
    List (List Char) → Option R → List (ProgressEvent R) →
    Except String (Option R) × List (ProgressEvent R)
  | [], fin, calls => (.ok fin, calls)
  | seg :: rest, fin, calls =>
    match parseSegment parse seg with
    | none => processSegs parse rest fin calls
    | some ev =>
      if ev.event = "error" then
        (.error (jsOrString ev.message extractionFailedMsg), calls)
      else
        processSegs parse rest
          (if ev.event = "complete" ∧ ev.result.isSome then ev.result else fin)
          (calls ++ [ev])

/-- The chunk-level while-loop of `extractActionablesStreaming`: per chunk,
split the accumulated buffer, process the complete segments (an `error`
record aborts the whole call), carry the incomplete tail into the buffer. -/
def runLoop {R : Type} (parse : List Char → Option (ProgressEvent R)) :
    List (List Char) → List Char → Option R → List (ProgressEvent R) →
    Except String (Option R) × List (ProgressEvent R)
  | [], _, fin, calls => (.ok fin, calls)
  | c :: cs, buf, fin, calls =>
    let parts := sseSplit (buf ++ c)
    match processSegs parse parts.dropLast fin calls with
    | (.ok fin1, calls1) => runLoop parse cs (lastD [] parts) fin1 calls1
    | (.error m, calls1) => (.error m, calls1)

/-- `extractActionablesStreaming` after a successful fetch: run the loop over
the transport's chunk sequence; if the stream ends without a recorded final
result, fail with the protocol-violation message (api.ts lines 203-205).
The second component is the ordered list of `onProgress` invocations. -/
def runExtract {R : Type} (parse : List Char → Option (ProgressEvent R))
    (chunks : List (List Char)) : Except String R × List (ProgressEvent R) :=
  match runLoop parse chunks [] none [] with
  | (.ok (some r), calls) => (.ok r, calls)
  | (.ok none, calls) => (.error streamEndedMsg, calls)
  | (.error m, calls) => (.error m, calls)

/-! ## Part 3: extraction progress projection
(actionables-panel.tsx lines 220-241 and 278-324)

`ExtractionProgress` and `INITIAL_PROGRESS` are the panel's progress state;
`applyProgress` is the `switch (event.event)` inside `handleExtract`'s
`onProgress` callback, one functional `setProgress` update per event.
Sequential arrival-order application is `List.foldl applyProgress`. -/

inductive Stage where
  | prefilter
  | extracting
  | validating
  | done
deriving DecidableEq

structure ExtractionProgress where
  stage : Stage
  candidateCount : Nat
  totalNodes : Nat
  totalBatches : Nat
  currentBatch : Nat
  currentSections : List String
  cumulativeActionables : Nat
  lastBatchActionables : Nat
deriving DecidableEq

def INITIAL_PROGRESS : ExtractionProgress :=
  { stage := .prefilter
    candidateCount := 0
    totalNodes := 0
    totalBatches := 0
    currentBatch := 0
    currentSections := []
    cumulativeActionables := 0
    lastBatchActionables := 0 }

def applyProgress {R : Type} (p : ExtractionProgress) (e : ProgressEvent R) :
    ExtractionProgress :=
  if e.event = "start" then
    { p with stage := .prefilter, totalNodes := e.total_nodes.getD 0 }
  else if e.event = "prefilter_done" then
    { p with candidateCount := e.candidate_count.getD 0
             totalNodes := e.total_nodes.getD p.totalNodes }
  else if e.event = "batches_planned" then
    { p with stage := .extracting
             totalBatches := e.total_batches.getD 0
             candidateCount := e.candidate_count.getD p.candidateCount }
  else if e.event = "batch_start" then
    { p with currentBatch := e.batch.getD p.currentBatch
             currentSections := e.sections.getD [] }
  else if e.event = "batch_done" then
    { p with currentBatch := e.batch.getD p.currentBatch
             lastBatchActionables := e.batch_actionables.getD 0
             cumulativeActionables := e.cumulative_actionables.getD p.cumulativeActionables }
  else if e.event = "validation_start" then
    { p with stage := .validating
             cumulativeActionables := e.total_actionables.getD p.cumulativeActionables }
  else if e.event = "validation_done" then
    { p with stage := .done }
  else p

/-! ## Part 4: chat submission (actionables-panel.tsx `ChatInterface.handleSubmit`,
lines 941-1003; `ResearchChat.handleSubmit` in research-chat.tsx lines 302-359
is the same logic over the corpus endpoint)

State: the local message list, the input box, the `loading` flag and
`activeConvId : string | null`.  A submission appends the optimistic user
turn, clears the input, sends the query with `conv_id: activeConvId ||
undefined`, and on success appends the answer turn and adopts `res.conv_id`
when no identifier was active; on failure it appends a fixed assistant-role
apology turn.  The network call is modelled by its outcome
(`some response` or `none` for a rejected promise). -/

inductive Role where
  | user
  | assistant
deriving DecidableEq

structure ChatMsg where
  role : Role
  content : String
  recordId : Option String := none
deriving DecidableEq

structure ChatState where
  messages : List ChatMsg
  input : String
  loading : Bool
  activeConvId : Option String
deriving DecidableEq

structure QueryRespM where
  answer : String
  record_id : String
  conv_id : String
deriving DecidableEq

/-- The request payload fields relevant here: the query text and the
`conv_id` actually sent (`activeConvId || undefined`). -/
structure SentQuery where
  query : String
  conv_id : Option String
deriving DecidableEq

/-- JavaScript `x || undefined` for `x : string | null`. -/
def jsTruthyOpt (o : Option String) : Option String :=
  match o with
  | some s => if s = "" then none else some s
  | none => none

/-- The fixed apology turn appended in the `catch` block. -/
def chatErrorMsg : ChatMsg :=
  { role := .assistant
    content := "Sorry, I encountered an error answering your question. Please try again."
    recordId := none }

/-- One run of `handleSubmit`, from the event to the `finally` block.
Returns the new state and the request that was sent (`none` when the
`!input.trim() || loading` guard returned early). -/
def handleSubmit (st : ChatState) (outcome : Option QueryRespM) :
    ChatState × Option SentQuery :=
  if jsTrim st.input.data = [] ∨ st.loading then (st, none)
  else
    let userMsg : ChatMsg := { role := .user, content := st.input, recordId := none }
    let st1 := { st with messages := st.messages ++ [userMsg], input := "", loading := true }
    let sent : SentQuery := { query := userMsg.content, conv_id := jsTruthyOpt st.activeConvId }
    match outcome with
    | some res =>
      let botMsg : ChatMsg := { role := .assistant, content := res.answer, recordId := some res.record_id }
      let st2 := { st1 with messages := st1.messages ++ [botMsg] }
      let st3 :=
        if jsTruthyOpt st.activeConvId = none ∧ res.conv_id ≠ "" then
          { st2 with activeConvId := some res.conv_id }
        else st2
      ({ st3 with loading := false }, some sent)
    | none =>
      ({ st1 with messages := st1.messages ++ [chatErrorMsg], loading := false }, some sent)

/-! ## Part 5: the PDF navigation handle (pdf-viewer.tsx lines 45-90)

`jumpToPage` calls the renderer's raw jump, then starts a `setInterval`
poll held only in the local `poll` constant; nothing stores it on the
component, so a later `jumpToPage` call has no way to clear it.  Each poll
ticks every 100ms: after 30 attempts it gives up; when its target page's
layer is rendered it clears itself and smooth-scrolls.  The scroll-offset
geometry (top of the page at 15% of the viewport height) is elided: a
scroll is recorded by the page it centers, which is all the poll lifecycle
depends on. -/

structure PollLoop where
  target : Nat
  attempts : Nat
deriving DecidableEq

structure PdfHandleState where
  rawJumps : List Nat
  polls : List PollLoop
  scrolls : List Nat
deriving DecidableEq

def initHandle : PdfHandleState := { rawJumps := [], polls := [], scrolls := [] }

def jumpToPage (st : PdfHandleState) (pageIndex : Nat) : PdfHandleState :=
  { st with rawJumps := st.rawJumps ++ [pageIndex]
            polls := st.polls ++ [{ target := pageIndex, attempts := 0 }] }

/-- One interval callback for one poll: bump `attempts`, give up past 30,
clear-and-scroll once the target page layer exists, otherwise keep polling.
`rendered` tells whether a page's layer is currently in the DOM. -/
def pollTick (rendered : Nat → Bool) (p : PollLoop) : Option PollLoop × Option Nat :=
  let att := p.attempts + 1
  if att > 30 then (none, none)
  else if rendered p.target then (none, some p.target)
  else (some { target := p.target, attempts := att }, none)

/-- One 100ms tick of the environment: every live interval fires once. -/
def tick (rendered : Nat → Bool) (st : PdfHandleState) : PdfHandleState :=
  let stepped := st.polls.map (pollTick rendered)
  { st with polls := stepped.filterMap Prod.fst
            scrolls := st.scrolls ++ stepped.filterMap Prod.snd }

/-! ## Part 6: cross-document navigation on the research page
(history page source, `ResearchPage` lines 376-412)

`handleCitationClick(docId, page)`: same document → immediate
`pdfRef.current?.jumpToPage(page - 1)`; different document → set
`pdfDocId`, `pendingPage`, switch the right panel to the PDF.  A React
effect with deps `[pendingPage, pdfDocId]` schedules a single 500ms timer
that jumps to the captured pending page and clears it; re-running the
effect first runs its cleanup, which clears the previously scheduled
timer.  The model makes the render-plus-effect flush atomic after each
handler run (cooperative event-loop scheduling): `timer` holds the page
captured by the currently scheduled timeout, `mounted` whether
`pdfRef.current` is non-null, and `jumps` records every `jumpToPage` call
as (document shown by the viewer, zero-based page index). -/

inductive NavCmd where
  | req (d : String) (p : Nat)
  | fire
  | mount
deriving DecidableEq

structure NavState where
  pdfDocId : Option String
  pendingPage : Option Nat
  rightPanelPdf : Bool
  mounted : Bool
  timer : Option Nat
  jumps : List (String × Nat)
deriving DecidableEq

def navInit : NavState :=
  { pdfDocId := none, pendingPage := none, rightPanelPdf := false
    mounted := false, timer := none, jumps := [] }

def navStep (st : NavState) : NavCmd → NavState
  | .req d p =>
    if st.pdfDocId = some d then
      if st.mounted then { st with jumps := st.jumps ++ [(d, p - 1)] } else st
    else
      { st with pdfDocId := some d, pendingPage := some p, rightPanelPdf := true
                timer := some p }
  | .fire =>
    match st.timer with
    | none => st
    | some p =>
      let jumped :=
        match st.pdfDocId with
        | some d => if st.mounted then st.jumps ++ [(d, p - 1)] else st.jumps
        | none => st.jumps
      { st with jumps := jumped, pendingPage := none, timer := none }
  | .mount =>
    if st.rightPanelPdf ∧ st.pdfDocId.isSome then { st with mounted := true } else st

def navRun (st : NavState) (cs : List NavCmd) : NavState :=
  cs.foldl navStep st

/-! ## Part 7: concrete streams, events and states used to evaluate the
definitions at specific inputs. -/

/-- A parseable `error` record whose `message` field is present but empty. -/
def errEventEmptyMsg : ProgressEvent Nat := { event := "error", message := some "" }

def parseErrEmpty : List Char → Option (ProgressEvent Nat) := fun _ => some errEventEmptyMsg

def errChunkE : List Char := ("data: e\n\n").data

def errEventBoom : ProgressEvent Nat := { event := "error", message := some "boom" }

def parseErrBoom : List Char → Option (ProgressEvent Nat) := fun _ => some errEventBoom

def startEventW : ProgressEvent Nat := { event := "start", total_nodes := some 5 }

def errEventW : ProgressEvent Nat := { event := "error", message := some "bad" }

def parseStartThenErr : List Char → Option (ProgressEvent Nat) := fun s =>
  if s = ['a'] then some startEventW
  else if s = ['e'] then some errEventW
  else none

def chunkStartErr : List Char := ("data: a\n\ndata: e\n\n").data

def parseNothing : List Char → Option (ProgressEvent Nat) := fun _ => none

def chunkPlain : List Char := ("data: x\n\n").data

/-- A mid-job progress snapshot with nonzero counters. -/
def progressMid : ExtractionProgress :=
  { stage := .extracting
    candidateCount := 7
    totalNodes := 40
    totalBatches := 3
    currentBatch := 2
    currentSections := ["A"]
    cumulativeActionables := 9
    lastBatchActionables := 4 }

def startEvent50 : ProgressEvent Nat := { event := "start", total_nodes := some 50 }

def prefilterDoneEvent : ProgressEvent Nat :=
  { event := "prefilter_done", candidate_count := some 12, total_nodes := some 50 }

def batchesPlannedEvent : ProgressEvent Nat :=
  { event := "batches_planned", total_batches := some 3 }

def batchStartEvent : ProgressEvent Nat :=
  { event := "batch_start", batch := some 1, sections := some ["A"] }

def batchDoneEvent : ProgressEvent Nat :=
  { event := "batch_done", batch := some 1, batch_actionables := some 4
    cumulative_actionables := some 4 }

def c8Messages : List (ProgressEvent Nat) :=
  [startEvent50, prefilterDoneEvent, batchesPlannedEvent, batchStartEvent, batchDoneEvent]

def chatEmpty : ChatState :=
  { messages := [], input := "", loading := false, activeConvId := none }

def respOne : QueryRespM := { answer := "ans", record_id := "r1", conv_id := "c1" }

def chatWithInput : ChatState :=
  { messages := [], input := "hi", loading := false, activeConvId := none }

def navPostW : List NavCmd := [.mount, .fire, .fire]

end Govinda

namespace Govinda

/-! Structural induction principle following the recursion of `sseSplit`. -/

theorem sseSplitRec (P : List Char → Prop) (h0 : P []) (h1 : ∀ a, P [a])
    (h2 : ∀ t, P t → P ('\n' :: '\n' :: t))
    (h3 : ∀ a b t, ¬(a = '\n' ∧ b = '\n') → P (b :: t) → P (a :: b :: t)) :
    ∀ s, P s := by
  have key : ∀ n (s : List Char), s.length ≤ n → P s := by
    intro n
    induction n with
    | zero =>
      intro s hs
      cases s with
      | nil => exact h0
      | cons a t => simp at hs
    | succ n ih =>
      intro s hs
      rcases s with _ | ⟨a, _ | ⟨b, t⟩⟩
      · exact h0
      · exact h1 a
      · simp only [List.length_cons] at hs
        by_cases hab : a = '\n' ∧ b = '\n'
        · obtain ⟨ha, hb⟩ := hab
          subst ha; subst hb
          exact h2 t (ih t (by omega))
        · exact h3 a b t hab (ih (b :: t) (by simp only [List.length_cons]; omega))
  intro s; exact key s.length s le_rfl

theorem sseSplit_nil : sseSplit [] = [[]] := rfl

theorem sseSplit_singleton (a : Char) : sseSplit [a] = [[a]] := rfl

theorem sseSplit_sep (t : List Char) : sseSplit ('\n' :: '\n' :: t) = [] :: sseSplit t := by
  simp [sseSplit]

theorem sseSplit_cons_cons (a b : Char) (t : List Char) (h : ¬(a = '\n' ∧ b = '\n'))
    (q : List Char) (qs : List (List Char)) (hq : sseSplit (b :: t) = q :: qs) :
    sseSplit (a :: b :: t) = (a :: q) :: qs := by
  simp only [sseSplit, if_neg h, hq]

theorem sseSplit_ne_nil : ∀ s : List Char, sseSplit s ≠ [] := by
  intro s
  induction s using sseSplitRec with
  | h0 => simp [sseSplit_nil]
  | h1 a => simp [sseSplit_singleton]
  | h2 t ih => simp [sseSplit_sep]
  | h3 a b t hab ih =>
    obtain ⟨q, qs, hq⟩ : ∃ q qs, sseSplit (b :: t) = q :: qs := by
      cases hbt : sseSplit (b :: t) with
      | nil => exact absurd hbt ih
      | cons q qs => exact ⟨q, qs, rfl⟩
    simp [sseSplit_cons_cons a b t hab q qs hq]

theorem sseSplit_eq_single : ∀ s : List Char, ∀ q, sseSplit s = [q] → q = s := by
  intro s
  induction s using sseSplitRec with
  | h0 =>
    intro q h
    rw [sseSplit_nil] at h
    obtain ⟨h1, -⟩ := List.cons.inj h
    exact h1.symm
  | h1 a =>
    intro q h
    rw [sseSplit_singleton] at h
    obtain ⟨h1, -⟩ := List.cons.inj h
    exact h1.symm
  | h2 t ih =>
    intro q h
    rw [sseSplit_sep] at h
    obtain ⟨-, h2⟩ := List.cons.inj h
    exact absurd h2 (sseSplit_ne_nil t)
  | h3 a b t hab ih =>
    intro q h
    obtain ⟨p, ps, hp⟩ : ∃ p ps, sseSplit (b :: t) = p :: ps := by
      cases hbt : sseSplit (b :: t) with
      | nil => exact absurd hbt (sseSplit_ne_nil (b :: t))
      | cons p ps => exact ⟨p, ps, rfl⟩
    rw [sseSplit_cons_cons a b t hab p ps hp] at h
    obtain ⟨h1, h2⟩ := List.cons.inj h
    have hp2 : p = b :: t := ih p (by rw [hp, h2])
    rw [← h1, hp2]

end Govinda

namespace Govinda

theorem lastD_cons_ne {α : Type} (d : α) (x : α) (l : List α) (h : l ≠ []) :
    lastD d (x :: l) = lastD d l := by
  cases l with
  | nil => exact absurd rfl h
  | cons y ys => rfl

theorem lastD_append_ne {α : Type} (d : α) (xs ys : List α) (h : ys ≠ []) :
    lastD d (xs ++ ys) = lastD d ys := by
  induction xs with
  | nil => rfl
  | cons x xs ih =>
    rw [List.cons_append, lastD_cons_ne]
    · exact ih
    · intro hc
      rcases List.append_eq_nil.mp hc with ⟨-, h2⟩
      exact h h2

/-- Splitting is compositional over concatenation: the terminator matches of
`s ++ c` are the matches inside `s` followed by the matches of the retained
tail of `s` glued to `c`. -/
theorem sseSplit_append : ∀ s c : List Char,
    sseSplit (s ++ c) = (sseSplit s).dropLast ++ sseSplit (lastD [] (sseSplit s) ++ c) := by
  intro s
  induction s using sseSplitRec with
  | h0 =>
    intro c
    rw [sseSplit_nil]
    rfl
  | h1 a =>
    intro c
    rw [sseSplit_singleton]
    rfl
  | h2 t ih =>
    intro c
    have hne := sseSplit_ne_nil t
    rw [List.cons_append, List.cons_append, sseSplit_sep, sseSplit_sep, ih c,
      List.dropLast_cons_of_ne_nil hne, lastD_cons_ne [] [] (sseSplit t) hne,
      List.cons_append]
  | h3 a b t hab ih =>
    intro c
    obtain ⟨q, qs, hq⟩ : ∃ q qs, sseSplit (b :: t) = q :: qs := by
      cases hbt : sseSplit (b :: t) with
      | nil => exact absurd hbt (sseSplit_ne_nil (b :: t))
      | cons q qs => exact ⟨q, qs, rfl⟩
    have hs := sseSplit_cons_cons a b t hab q qs hq
    cases qs with
    | nil =>
      have hq2 : q = b :: t := sseSplit_eq_single (b :: t) q hq
      rw [hs]
      simp only [List.dropLast_single, List.nil_append]
      rw [show lastD [] [a :: q] = a :: q from rfl, hq2]
    | cons r rs =>
      have hqs : (r :: rs : List (List Char)) ≠ [] := by simp
      have hbtc : sseSplit ((b :: t) ++ c) = q :: (List.dropLast (r :: rs) ++ sseSplit (lastD [] (r :: rs) ++ c)) := by
        rw [ih c, hq, List.dropLast_cons_of_ne_nil hqs, lastD_cons_ne [] q (r :: rs) hqs,
          List.cons_append]
      have lhs : sseSplit ((a :: b :: t) ++ c) =
          (a :: q) :: (List.dropLast (r :: rs) ++ sseSplit (lastD [] (r :: rs) ++ c)) := by
        rw [List.cons_append]
        exact sseSplit_cons_cons a b (t ++ c) hab _ _ (by rw [← List.cons_append]; exact hbtc)
      rw [lhs, hs, List.dropLast_cons_of_ne_nil hqs, lastD_cons_ne [] (a :: q) (r :: rs) hqs,
        List.cons_append]

/-- The retained tail of a split contains no terminator: splitting it again
yields it back whole. -/
theorem sseSplit_lastD : ∀ s : List Char,
    sseSplit (lastD [] (sseSplit s)) = [lastD [] (sseSplit s)] := by
  intro s
  induction s using sseSplitRec with
  | h0 => rfl
  | h1 a => rfl
  | h2 t ih =>
    rw [sseSplit_sep, lastD_cons_ne [] [] (sseSplit t) (sseSplit_ne_nil t)]
    exact ih
  | h3 a b t hab ih =>
    obtain ⟨q, qs, hq⟩ : ∃ q qs, sseSplit (b :: t) = q :: qs := by
      cases hbt : sseSplit (b :: t) with
      | nil => exact absurd hbt (sseSplit_ne_nil (b :: t))
      | cons q qs => exact ⟨q, qs, rfl⟩
    have hs := sseSplit_cons_cons a b t hab q qs hq
    cases qs with
    | nil =>
      have hq2 : q = b :: t := sseSplit_eq_single (b :: t) q hq
      rw [hs, show lastD [] [a :: q] = a :: q from rfl, hq2]
      exact sseSplit_cons_cons a b t hab (b :: t) [] (by rw [hq, hq2])
    | cons r rs =>
      have hqs : (r :: rs : List (List Char)) ≠ [] := by simp
      rw [hs, lastD_cons_ne [] (a :: q) (r :: rs) hqs]
      rw [hq, lastD_cons_ne [] q (r :: rs) hqs] at ih
      exact ih

/-- The chunked decoding loop yields exactly the complete parts of the split
of the whole accumulated text, and retains its last part. -/
theorem decodeAux_eq : ∀ (chunks : List (List Char)) (buf : List Char),
    sseSplit buf = [buf] →
    decodeAux buf chunks =
      ((sseSplit (buf ++ chunks.flatten)).dropLast, lastD [] (sseSplit (buf ++ chunks.flatten))) := by
  intro chunks
  induction chunks with
  | nil =>
    intro buf hbuf
    simp only [decodeAux, List.flatten_nil, List.append_nil, hbuf]
    rfl
  | cons c cs ih =>
    intro buf hbuf
    have hsplit : sseSplit (buf ++ (c :: cs).flatten) =
        (sseSplit (buf ++ c)).dropLast ++ sseSplit (lastD [] (sseSplit (buf ++ c)) ++ cs.flatten) := by
      rw [List.flatten_cons, ← List.append_assoc]
      exact sseSplit_append (buf ++ c) cs.flatten
    have hne : sseSplit (lastD [] (sseSplit (buf ++ c)) ++ cs.flatten) ≠ [] :=
      sseSplit_ne_nil _
    simp only [decodeAux]
    rw [ih (lastD [] (sseSplit (buf ++ c))) (sseSplit_lastD (buf ++ c))]
    rw [hsplit, List.dropLast_append_of_ne_nil _ hne, lastD_append_ne [] _ _ hne]

end Govinda

namespace Govinda

/-- C1: for every serialized progress stream and every partition of it into
chunks (arbitrary split points, including splits in the middle of a record),
the stream decoder inside `extractActionablesStreaming` yields exactly the
same ordered sequence of parsed records as decoding the whole stream
delivered as a single chunk. -/
theorem c1_decoder_chunk_split_invariant {R : Type}
    (parse : List Char → Option (ProgressEvent R)) (chunks : List (List Char)) :
    streamRecords parse chunks = streamRecords parse [chunks.flatten] := by
  unfold streamRecords decodeChunks
  rw [decodeAux_eq chunks [] rfl, decodeAux_eq [chunks.flatten] [] rfl]
  simp

theorem processSegs_eq {R : Type} (parse : List Char → Option (ProgressEvent R)) :
    ∀ (segs : List (List Char)) (fin : Option R) (calls : List (ProgressEvent R)),
    processSegs parse segs fin calls =
      processEvents (segs.filterMap (parseSegment parse)) fin calls := by
  intro segs
  induction segs with
  | nil => intro fin calls; rfl
  | cons seg rest ih =>
    intro fin calls
    cases hp : parseSegment parse seg with
    | none =>
      simp only [processSegs, hp, List.filterMap_cons]
      exact ih fin calls
    | some ev =>
      simp only [processSegs, hp, List.filterMap_cons, processEvents]
      by_cases he : ev.event = "error"
      · simp [he]
      · simp [he, ih]

theorem processEvents_append {R : Type} :
    ∀ (l1 l2 : List (ProgressEvent R)) (fin : Option R) (calls : List (ProgressEvent R)),
    processEvents (l1 ++ l2) fin calls =
      match processEvents l1 fin calls with
      | (.ok fin1, calls1) => processEvents l2 fin1 calls1
      | (.error m, calls1) => (.error m, calls1) := by
  intro l1
  induction l1 with
  | nil => intro l2 fin calls; rfl
  | cons ev rest ih =>
    intro l2 fin calls
    simp only [List.cons_append, processEvents]
    by_cases he : ev.event = "error"
    · simp [he]
    · simp [he, ih]

theorem runLoop_eq {R : Type} (parse : List Char → Option (ProgressEvent R)) :
    ∀ (chunks : List (List Char)) (buf : List Char) (fin : Option R)
      (calls : List (ProgressEvent R)),
    runLoop parse chunks buf fin calls =
      processEvents (((decodeAux buf chunks).1).filterMap (parseSegment parse)) fin calls := by
  intro chunks
  induction chunks with
  | nil => intro buf fin calls; rfl
  | cons c cs ih =>
    intro buf fin calls
    simp only [runLoop, decodeAux, List.filterMap_append, processEvents_append,
      ← processSegs_eq]
    cases hps : processSegs parse (sseSplit (buf ++ c)).dropLast fin calls with
    | mk res calls1 =>
      cases res with
      | ok fin1 =>
        simp [ih]
        exact (processSegs_eq parse _ fin1 calls1).symm
      | error m => simp

end Govinda

namespace Govinda

theorem processEvents_no_complete {R : Type} :
    ∀ (evs : List (ProgressEvent R)) (fin : Option R) (calls : List (ProgressEvent R)),
    (∀ ev ∈ evs, ¬(ev.event = "complete" ∧ ev.result.isSome)) →
    (processEvents evs fin calls).1 = .ok fin ∨
      ∃ m, (processEvents evs fin calls).1 = .error m := by
  intro evs
  induction evs with
  | nil => intro fin calls _; left; rfl
  | cons ev rest ih =>
    intro fin calls h
    by_cases he : ev.event = "error"
    · right
      exact ⟨jsOrString ev.message extractionFailedMsg, by simp [processEvents, he]⟩
    · have hc : ¬(ev.event = "complete" ∧ ev.result.isSome) :=
        h ev (List.mem_cons_self ev rest)
      have hrec := ih fin (calls ++ [ev]) (fun e he2 => h e (List.mem_cons_of_mem ev he2))
      simpa [processEvents, he, if_neg hc] using hrec

theorem processEvents_first_error {R : Type} :
    ∀ (pre : List (ProgressEvent R)) (e : ProgressEvent R) (post : List (ProgressEvent R))
      (fin : Option R) (calls : List (ProgressEvent R)),
    e.event = "error" → (∀ ev ∈ pre, ev.event ≠ "error") →
    processEvents (pre ++ e :: post) fin calls =
      (.error (jsOrString e.message extractionFailedMsg), calls ++ pre) := by
  intro pre
  induction pre with
  | nil =>
    intro e post fin calls he _
    simp [processEvents, he]
  | cons p pre ih =>
    intro e post fin calls he hpre
    have hp : p.event ≠ "error" := hpre p (List.mem_cons_self p pre)
    simp only [List.cons_append, processEvents, if_neg hp, List.append_eq]
    rw [ih e post _ _ he (fun ev hev => hpre ev (List.mem_cons_of_mem p hev))]
    simp

theorem runExtract_first_error {R : Type} (parse : List Char → Option (ProgressEvent R))
    (chunks : List (List Char)) (pre : List (ProgressEvent R)) (e : ProgressEvent R)
    (post : List (ProgressEvent R))
    (hsplit : streamRecords parse chunks = pre ++ e :: post)
    (he : e.event = "error") (hpre : ∀ ev ∈ pre, ev.event ≠ "error") :
    runExtract parse chunks = (.error (jsOrString e.message extractionFailedMsg), pre) := by
  have hrecords : ((decodeAux [] chunks).1).filterMap (parseSegment parse) = pre ++ e :: post :=
    hsplit
  unfold runExtract
  rw [runLoop_eq, hrecords, processEvents_first_error pre e post none [] he hpre]
  simp

/-- C4: for every stream consumed by `extractActionablesStreaming` that ends
without ever delivering a parseable `complete` record carrying a result
(including when the terminal record fails to parse), the call fails with an
error rather than returning a success value. -/
theorem c4_stream_without_complete_fails {R : Type}
    (parse : List Char → Option (ProgressEvent R)) (chunks : List (List Char))
    (h : ∀ ev ∈ streamRecords parse chunks, ¬(ev.event = "complete" ∧ ev.result.isSome)) :
    ∃ m, (runExtract parse chunks).1 = Except.error m := by
  have hr := runLoop_eq parse chunks [] none []
  have h' : ∀ ev ∈ ((decodeAux [] chunks).1).filterMap (parseSegment parse),
      ¬(ev.event = "complete" ∧ ev.result.isSome) := h
  cases hpr : runLoop parse chunks [] none [] with
  | mk res calls =>
    have h1 : res = (processEvents (((decodeAux [] chunks).1).filterMap (parseSegment parse)) none []).1 := by
      rw [← hr, hpr]
    rcases processEvents_no_complete _ none [] h' with hok | ⟨m, herr⟩
    · refine ⟨streamEndedMsg, ?_⟩
      have h2 : res = .ok none := h1.trans hok
      unfold runExtract
      rw [hpr, h2]
    · refine ⟨m, ?_⟩
      have h2 : res = .error m := h1.trans herr
      unfold runExtract
      rw [hpr, h2]

/-- C4 witness: a stream whose single record does not parse satisfies the
hypothesis, and the call indeed fails. -/
theorem c4_stream_without_complete_fails_witness :
    (∀ ev ∈ streamRecords parseNothing [chunkPlain],
      ¬(ev.event = "complete" ∧ ev.result.isSome)) ∧
    ∃ m, (runExtract parseNothing [chunkPlain]).1 = Except.error m :=
  ⟨by decide, c4_stream_without_complete_fails parseNothing [chunkPlain] (by decide)⟩

end Govinda

namespace Govinda

/-- C5 counterexample: a stream whose single parseable record is
`error`-tagged with a present-but-empty `message`.  The claim predicts the
message is used verbatim as the failure reason whenever it is present, i.e.
the empty string here; the code (`parsed.message || 'Extraction failed'`)
treats the empty string as falsy and substitutes the generic default. -/
theorem c5_error_message_verbatim_counterexample :
    streamRecords parseErrEmpty [errChunkE] = [errEventEmptyMsg] ∧
    errEventEmptyMsg.message = some "" ∧
    (runExtract parseErrEmpty [errChunkE]).1 ≠ Except.error "" ∧
    (runExtract parseErrEmpty [errChunkE]).1 = Except.error extractionFailedMsg := by
  decide

/-- C5 (amended): for every stream in which a parseable record with tag
`error` appears (taking the first such record), `extractActionablesStreaming`
fails immediately at that record, using the record's message verbatim as the
failure reason when it is present and nonempty (the generic default when it
is absent or empty), and consumes no further records: independent of
everything after the error record, the result is that failure and the
`onProgress` trace is exactly the records before it. -/
theorem c5_error_record_fails_immediately {R : Type}
    (parse : List Char → Option (ProgressEvent R)) (chunks : List (List Char))
    (pre : List (ProgressEvent R)) (e : ProgressEvent R) (post : List (ProgressEvent R))
    (hsplit : streamRecords parse chunks = pre ++ e :: post)
    (he : e.event = "error") (hpre : ∀ ev ∈ pre, ev.event ≠ "error") :
    (runExtract parse chunks).1 = Except.error (jsOrString e.message extractionFailedMsg) ∧
    (runExtract parse chunks).2 = pre := by
  rw [runExtract_first_error parse chunks pre e post hsplit he hpre]
  exact ⟨rfl, rfl⟩

/-- C5 witness: a single `error` record with message "boom" fails the call
with exactly "boom" and an empty progress trace. -/
theorem c5_error_record_fails_immediately_witness :
    (streamRecords parseErrBoom [errChunkE] = [] ++ errEventBoom :: [] ∧
      errEventBoom.event = "error" ∧
      jsOrString errEventBoom.message extractionFailedMsg = "boom") ∧
    (runExtract parseErrBoom [errChunkE]).1 =
      Except.error (jsOrString errEventBoom.message extractionFailedMsg) ∧
    (runExtract parseErrBoom [errChunkE]).2 = [] :=
  ⟨by decide,
    c5_error_record_fails_immediately parseErrBoom [errChunkE] [] errEventBoom []
      (by decide) (by decide) (by decide)⟩

/-- C10: for every stream containing a parseable `error`-tagged record (the
first such record), the `onProgress` callback is never invoked with that
record nor with anything after it: the trace of `onProgress` invocations is
exactly the records strictly before the error, and in particular no
error-tagged record is ever passed to the callback. -/
theorem c10_onprogress_never_sees_error {R : Type}
    (parse : List Char → Option (ProgressEvent R)) (chunks : List (List Char))
    (pre : List (ProgressEvent R)) (e : ProgressEvent R) (post : List (ProgressEvent R))
    (hsplit : streamRecords parse chunks = pre ++ e :: post)
    (he : e.event = "error") (hpre : ∀ ev ∈ pre, ev.event ≠ "error") :
    (runExtract parse chunks).2 = pre ∧
    ∀ ev ∈ (runExtract parse chunks).2, ev.event ≠ "error" := by
  rw [runExtract_first_error parse chunks pre e post hsplit he hpre]
  exact ⟨rfl, hpre⟩

/-- C10 witness: a stream with a `start` record followed by an `error`
record invokes `onProgress` exactly once, with the `start` record only. -/
theorem c10_onprogress_never_sees_error_witness :
    (streamRecords parseStartThenErr [chunkStartErr] = [startEventW] ++ errEventW :: [] ∧
      errEventW.event = "error" ∧
      ∀ ev ∈ ([startEventW] : List (ProgressEvent Nat)), ev.event ≠ "error") ∧
    (runExtract parseStartThenErr [chunkStartErr]).2 = [startEventW] ∧
    ∀ ev ∈ (runExtract parseStartThenErr [chunkStartErr]).2, ev.event ≠ "error" :=
  ⟨by decide,
    c10_onprogress_never_sees_error parseStartThenErr [chunkStartErr] [startEventW]
      errEventW [] (by decide) (by decide) (by decide)⟩

end Govinda

namespace Govinda

/-- C6 counterexample: applying a `start` message to a snapshot with nonzero
counters.  The claim predicts every counter (candidate count, batches,
current batch, cumulative and last-batch actionable counts, sections) is
reset to its initial zero/empty value; the code's `start` case only sets
`stage` and `totalNodes` and leaves the rest untouched (the zeroing happens
separately, via `setProgress(INITIAL_PROGRESS)` before the stream starts). -/
theorem c6_start_resets_counters_counterexample :
    (applyProgress progressMid startEvent50).stage = Stage.prefilter ∧
    (applyProgress progressMid startEvent50).candidateCount ≠ 0 ∧
    (applyProgress progressMid startEvent50).currentBatch ≠ 0 ∧
    (applyProgress progressMid startEvent50).currentSections ≠ [] := by
  decide

/-- C6 (amended): applying a `start` message to any snapshot sets the stage
to prefilter and `totalNodes` from the message (0 when absent) and leaves
every other field unchanged; the all-zero reset of the counters happens when
a job starts, via the initial snapshot, not via the `start` message. -/
theorem c6_start_sets_stage_only {R : Type} (p : ExtractionProgress)
    (e : ProgressEvent R) (he : e.event = "start") :
    applyProgress p e = { p with stage := .prefilter, totalNodes := e.total_nodes.getD 0 } := by
  unfold applyProgress
  rw [if_pos he]

/-- C6 witness: the amended rule evaluated on the mid-job snapshot. -/
theorem c6_start_sets_stage_only_witness :
    startEvent50.event = "start" ∧
    applyProgress progressMid startEvent50 =
      { progressMid with stage := .prefilter, totalNodes := startEvent50.total_nodes.getD 0 } :=
  ⟨rfl, c6_start_sets_stage_only progressMid startEvent50 rfl⟩

/-- C8: starting from the initial snapshot, applying in order
start(total_nodes=50), prefilter_done(candidate_count=12, total_nodes=50),
batches_planned(total_batches=3), batch_start(batch=1, sections=["A"]),
batch_done(batch=1, batch_actionables=4, cumulative_actionables=4) yields
stage "extracting", current batch 1 and cumulative actionable count 4. -/
theorem c8_progress_scenario :
    (c8Messages.foldl applyProgress INITIAL_PROGRESS).stage = Stage.extracting ∧
    (c8Messages.foldl applyProgress INITIAL_PROGRESS).currentBatch = 1 ∧
    (c8Messages.foldl applyProgress INITIAL_PROGRESS).cumulativeActionables = 4 := by
  decide

end Govinda

namespace Govinda

/-- C7: in a scope with no conversation identifier, the first submitted turn
sends no identifier, adopts the identifier minted by the response, and a
second submitted turn (whatever its own outcome) sends that adopted
identifier, so both turns share the identifier from the first response. -/
theorem c7_conversation_id_adoption (st0 : ChatState) (input1 input2 : String)
    (res1 : QueryRespM) (out2 : Option QueryRespM)
    (h0 : st0.activeConvId = none) (hl : st0.loading = false)
    (h1 : jsTrim input1.data ≠ []) (h2 : jsTrim input2.data ≠ [])
    (hc : res1.conv_id ≠ "") :
    (handleSubmit { st0 with input := input1 } (some res1)).2 =
      some { query := input1, conv_id := none } ∧
    ((handleSubmit { st0 with input := input1 } (some res1)).1).activeConvId =
      some res1.conv_id ∧
    (handleSubmit { (handleSubmit { st0 with input := input1 } (some res1)).1 with
        input := input2 } out2).2 =
      some { query := input2, conv_id := some res1.conv_id } := by
  refine ⟨?_, ?_, ?_⟩ <;>
    cases out2 <;>
    simp [handleSubmit, jsTruthyOpt, h0, hl, h1, h2, hc]

/-- C7 witness: two concrete turns in a fresh scope both end up on the
identifier minted by the first response. -/
theorem c7_conversation_id_adoption_witness :
    (chatEmpty.activeConvId = none ∧ chatEmpty.loading = false ∧
      jsTrim ("hi" : String).data ≠ [] ∧ jsTrim ("again" : String).data ≠ [] ∧
      respOne.conv_id ≠ "") ∧
    (handleSubmit { chatEmpty with input := "hi" } (some respOne)).2 =
      some { query := "hi", conv_id := none } ∧
    ((handleSubmit { chatEmpty with input := "hi" } (some respOne)).1).activeConvId =
      some respOne.conv_id ∧
    (handleSubmit { (handleSubmit { chatEmpty with input := "hi" } (some respOne)).1 with
        input := "again" } none).2 =
      some { query := "again", conv_id := some respOne.conv_id } :=
  ⟨by decide,
    c7_conversation_id_adoption chatEmpty "hi" "again" respOne none
      (by decide) (by decide) (by decide) (by decide) (by decide)⟩

/-- C9 counterexample: a failed submission from an empty history with input
"hi".  The optimistic user turn does remain, but the code then appends an
assistant-role apology turn for that query, so the local list is not left
"without a matching answer turn": an assistant turn matching the failed
query is recorded. -/
theorem c9_no_answer_turn_counterexample :
    (handleSubmit chatWithInput none).1.messages =
      [{ role := .user, content := "hi", recordId := none }, chatErrorMsg] ∧
    chatErrorMsg.role = Role.assistant := by
  decide

/-- C9 (amended): for every submitted turn whose query request fails, the
optimistic user turn remains in place and is followed by exactly one
assistant-role error-notice turn with fixed apology content and no record
identifier; no answer from the failed query is recorded. -/
theorem c9_failed_submit_keeps_user_turn (st : ChatState)
    (h1 : jsTrim st.input.data ≠ []) (h2 : st.loading = false) :
    (handleSubmit st none).1.messages =
      st.messages ++ [{ role := .user, content := st.input, recordId := none }, chatErrorMsg] ∧
    (handleSubmit st none).1.loading = false := by
  simp [handleSubmit, h1, h2]

/-- C9 witness: the amended behaviour evaluated on a concrete failing
submission. -/
theorem c9_failed_submit_keeps_user_turn_witness :
    (jsTrim chatWithInput.input.data ≠ [] ∧ chatWithInput.loading = false) ∧
    (handleSubmit chatWithInput none).1.messages =
      chatWithInput.messages ++
        [{ role := .user, content := chatWithInput.input, recordId := none }, chatErrorMsg] ∧
    (handleSubmit chatWithInput none).1.loading = false :=
  ⟨by decide, c9_failed_submit_keeps_user_turn chatWithInput (by decide) (by decide)⟩

end Govinda

namespace Govinda

/-- C2: the claim says a second `jumpToPage` call cancels the first call's
poll interval, leaving at most one active poll per handle.  In the source
the `setInterval` handle is a local `const poll` inside `jumpToPage`;
nothing stores it on the component, so a second call cannot clear it.  Two
rapid calls leave two concurrently active poll loops, and when both target
pages render, both fire a scroll (the duplicate scroll animation the spec
rules out). -/
theorem c2_second_jump_leaves_two_active_polls :
    (jumpToPage (jumpToPage initHandle 3) 7).polls.length = 2 ∧
    (tick (fun _ => true) (jumpToPage (jumpToPage initHandle 3) 7)).scrolls = [3, 7] ∧
    (tick (fun _ => false) (jumpToPage (jumpToPage initHandle 3) 7)).polls.length = 2 := by
  decide

theorem navRun_nil (st : NavState) : navRun st [] = st := rfl

theorem navRun_cons (st : NavState) (c : NavCmd) (cs : List NavCmd) :
    navRun st (c :: cs) = navRun (navStep st c) cs := rfl

/-- Once the pending navigation targets document `B` page 2, any sequence of
timer firings and viewer mounts only ever jumps to page index 1 of `B`. -/
theorem navInvariant_preserved (B : String) : ∀ (post : List NavCmd),
    (∀ c ∈ post, c = NavCmd.fire ∨ c = NavCmd.mount) →
    ∀ st : NavState, st.pdfDocId = some B →
    (st.timer = none ∨ st.timer = some 2) →
    (∀ j ∈ st.jumps, j = (B, 1)) →
    ∀ j ∈ (navRun st post).jumps, j = (B, 1) := by
  intro post
  induction post with
  | nil =>
    intro _ st h1 h2 h3
    simpa [navRun_nil] using h3
  | cons c cs ih =>
    intro hpost st h1 h2 h3
    have hrest : ∀ c ∈ cs, c = NavCmd.fire ∨ c = NavCmd.mount :=
      fun c hc => hpost c (List.mem_cons_of_mem _ hc)
    rw [navRun_cons]
    rcases hpost c (List.mem_cons_self c cs) with rfl | rfl
    · cases ht : st.timer with
      | none =>
        have hstep : navStep st .fire = st := by simp [navStep, ht]
        rw [hstep]
        exact ih hrest st h1 h2 h3
      | some p =>
        have hp2 : p = 2 := by
          rcases h2 with h | h
          · rw [ht] at h; exact absurd h (by simp)
          · rw [ht] at h; exact Option.some.inj h
        subst hp2
        have hstep : navStep st .fire =
            { st with jumps := if st.mounted then st.jumps ++ [(B, 1)] else st.jumps,
                      pendingPage := none, timer := none } := by
          simp [navStep, ht, h1]
        rw [hstep]
        refine ih hrest _ (by simp [h1]) (by simp) ?_
        intro j hj
        by_cases hm : st.mounted
        · simp only [hm, if_true] at hj
          rcases List.mem_append.mp hj with hj1 | hj2
          · exact h3 j hj1
          · simpa using List.mem_singleton.mp hj2
        · simp only [hm, if_false] at hj
          exact h3 j hj
    · by_cases hcond : st.rightPanelPdf ∧ st.pdfDocId.isSome
      · have hstep : navStep st .mount = { st with mounted := true } := by
          simp [navStep, hcond]
        rw [hstep]
        exact ih hrest _ (by simp [h1]) (by simpa using h2) (by simpa using h3)
      · have hstep : navStep st .mount = st := by
          simp [navStep, hcond]
        rw [hstep]
        exact ih hrest st h1 h2 h3

/-- C3: a navigation request for document A page 5 immediately followed by a
request for document B page 2, both issued before A's viewer has mounted,
results in only B's page 2 (zero-based index 1) ever being jumped to over
any continuation of timer firings and viewer mounts: the superseded pending
navigation for A is discarded (its timer is cleared by the effect cleanup
and its pending page overwritten) and A's jump never fires. -/
theorem c3_superseded_navigation_never_fires (A B : String) (post : List NavCmd)
    (hAB : A ≠ B) (hpost : ∀ c ∈ post, c = NavCmd.fire ∨ c = NavCmd.mount) :
    ∀ j ∈ (navRun navInit (NavCmd.req A 5 :: NavCmd.req B 2 :: post)).jumps,
      j = (B, 1) := by
  have hstep : navRun navInit (NavCmd.req A 5 :: NavCmd.req B 2 :: post) =
      navRun { pdfDocId := some B, pendingPage := some 2, rightPanelPdf := true
               mounted := false, timer := some 2, jumps := [] } post := by
    rw [navRun_cons, navRun_cons]
    congr 1
    simp [navStep, navInit, hAB]
  rw [hstep]
  exact navInvariant_preserved B post hpost _ rfl (Or.inr rfl) (by simp)

/-- C3 witness: concrete documents "a" and "b" with a mount and two timer
firings after the two requests; every jump recorded is to page index 1 of
"b". -/
theorem c3_superseded_navigation_never_fires_witness :
    (("a" : String) ≠ "b" ∧ (∀ c ∈ navPostW, c = NavCmd.fire ∨ c = NavCmd.mount)) ∧
    ∀ j ∈ (navRun navInit (NavCmd.req "a" 5 :: NavCmd.req "b" 2 :: navPostW)).jumps,
      j = (("b" : String), 1) :=
  ⟨⟨by decide, by decide⟩,
    c3_superseded_navigation_never_fires "a" "b" navPostW (by decide) (by decide)⟩

end Govinda
